import Mathlib

/-!
Verification of the study-plan generation subsystem of the `mcp_server`
repository (`src/index.ts`).

JavaScript strings are modelled as `List Char`.  Each definition below is a
direct translation of the corresponding TypeScript expression:

* `splitOnChar c`        models `s.split(c)`;
* `toLowerList`          models `s.toLowerCase()` (ASCII);
* `containsList hay sub` models `hay.includes(sub)`;
* `jsTrim`               models `s.trim()`;
* `isTopicLine`          models `line.match` with the anchored pattern `KA`, `\s*`, `\d+`, `\s*`, dash;
* `stripTopicHead`       models `s.replace` deleting the anchored pattern `KA`, `\s*`, `\d+`, `\s*`, dash, `\s*`;
* `natToChars`           models JavaScript number-to-string for naturals.
-/

/-- Character class of the JavaScript `\s` regex class / `trim()` removal set
(the ASCII part plus NBSP and BOM, which is what the knowledge-base texts can
contain). -/
def isJsSpace (c : Char) : Bool :=
  c = ' ' || c = '\t' || c = '\n' || c = '\r' || c = '\x0b' || c = '\x0c' ||
  c = ' ' || c = '﻿'

/-- `s.toLowerCase()` on the ASCII range, character by character. -/
def toLowerList (l : List Char) : List Char := l.map Char.toLower

/-- `hay.startsWith(needle)` on character lists. -/
def startsWithList : List Char → List Char → Bool
  | _, [] => true
  | [], _ :: _ => false
  | c :: cs, d :: ds => c = d && startsWithList cs ds

/-- `hay.includes(sub)` on character lists. -/
def containsList : List Char → List Char → Bool
  | [], sub => startsWithList [] sub
  | c :: cs, sub => startsWithList (c :: cs) sub || containsList cs sub

/-- Remove `pre` from the front of `l`; `none` when `l` does not start with
`pre`.  Used by the week-block scanner. -/
def dropStart : List Char → List Char → Option (List Char)
  | [], l => some l
  | _ :: _, [] => none
  | d :: ds, c :: cs => if c = d then dropStart ds cs else none

/-- `s.split(sep)` on character lists (JavaScript semantics: always at least
one segment, empty segments kept). -/
def splitOnChar (sep : Char) : List Char → List (List Char)
  | [] => [[]]
  | c :: cs =>
    let r := splitOnChar sep cs
    if c = sep then [] :: r
    else
      match r with
      | [] => [[c]]
      | h :: t => (c :: h) :: t

/-- `parts.join(sep)` on character lists. -/
def intercalateList (sep : List Char) : List (List Char) → List Char
  | [] => []
  | [x] => x
  | x :: y :: t => x ++ sep ++ intercalateList sep (y :: t)

/-- Remove trailing JavaScript whitespace. -/
def dropTrailingWs (l : List Char) : List Char :=
  (l.reverse.dropWhile isJsSpace).reverse

/-- `s.trim()`: remove leading and trailing JavaScript whitespace. -/
def jsTrim (l : List Char) : List Char :=
  dropTrailingWs (l.dropWhile isJsSpace)

/-- Decimal digit character for `n < 10`. -/
def digitChar (n : Nat) : Char := Char.ofNat (48 + n)

/-- Fuelled decimal printer (structural recursion so that the kernel can
evaluate it). -/
def natToCharsGo : Nat → Nat → List Char
  | 0, _ => []
  | fuel + 1, n =>
    if n < 10 then [digitChar n]
    else natToCharsGo fuel (n / 10) ++ [digitChar (n % 10)]

/-- JavaScript `${week}` for a natural number: decimal digits. -/
def natToChars (n : Nat) : List Char := natToCharsGo (n + 1) n

/-- `line.match` with the anchored pattern `KA`, `\s*`, `\d+`, `\s*`, dash as a Boolean: the line starts with `KA`,
then optional whitespace, at least one digit, optional whitespace, and a
dash. -/
def isTopicLine (line : List Char) : Bool :=
  match line with
  | c1 :: c2 :: rest =>
    c1 == 'K' && c2 == 'A' &&
      (let r1 := rest.dropWhile isJsSpace
       let ds := r1.takeWhile Char.isDigit
       !ds.isEmpty &&
         (match (r1.dropWhile Char.isDigit).dropWhile isJsSpace with
          | c :: _ => c == '-'
          | [] => false))
  | _ => false

/-- `s.replace` deleting the anchored pattern `KA`, `\s*`, `\d+`, `\s*`, dash, `\s*`: when the anchored pattern matches,
drop it (including the whitespace after the dash); otherwise return the
string unchanged. -/
def stripTopicHead (l : List Char) : List Char :=
  match l with
  | c1 :: c2 :: rest =>
    if c1 == 'K' && c2 == 'A' then
      let r1 := rest.dropWhile isJsSpace
      let ds := r1.takeWhile Char.isDigit
      if ds.isEmpty then l
      else
        match (r1.dropWhile Char.isDigit).dropWhile isJsSpace with
        | c :: r2 => if c == '-' then r2.dropWhile isJsSpace else l
        | [] => l
    else l
  | _ => l

/-- `line.split` at colons, first part trimmed (with the always-defined fallback) — the label printed for one
available topic in the no-match error message (source lines 113–116). -/
def topicLabel (line : List Char) : List Char :=
  jsTrim ((splitOnChar ':' line).headD line)

/-- `focusAreas.some(area => line.toLowerCase().includes(area.toLowerCase()))`
(source line 108). -/
def focusMatch (focusAreas : List (List Char)) (line : List Char) : Bool :=
  focusAreas.any (fun area => containsList (toLowerList line) (toLowerList area))

/-- the combined filter of topic-line test and focus match
(source lines 106–108). -/
def relevantConceptsOf (lines : List (List Char)) (focusAreas : List (List Char)) :
    List (List Char) :=
  lines.filter (fun line => isTopicLine line && focusMatch focusAreas line)

/-- `availableTopics` of the no-match branch (source lines 111–117):
all topic lines of the unfiltered document, labelled and joined with ", ". -/
def availableTopicsStr (lines : List (List Char)) : List Char :=
  intercalateList (", ".data) ((lines.filter isTopicLine).map topicLabel)

/-- The no-match error message (source lines 119–120, exact template text,
including the trailing space before the line break). -/
def noMatchMsg (focusAreas : List (List Char)) (lines : List (List Char)) : List Char :=
  "No concepts found matching focus areas: ".data ++
    intercalateList (", ".data) focusAreas ++
    ". \nAvailable topics: ".data ++ availableTopicsStr lines

/-- `relevantConcepts[(week - 1) % relevantConcepts.length] || ''`
(source lines 125–126). -/
def conceptForWeek (rc : List (List Char)) (week : Nat) : List Char :=
  (rc.get? ((week - 1) % rc.length)).getD []

/-- the loop body's title computation: first colon-segment of the concept,
marker head stripped, trimmed; `Review and Practice` when the segment list is empty (source lines 127–128). -/
def titleForWeek (rc : List (List Char)) (week : Nat) : List Char :=
  match (splitOnChar ':' (conceptForWeek rc week)).head? with
  | some p => jsTrim (stripTopicHead p)
  | none => "Review and Practice".data

/-- The five lines appended for one week of the plan (source lines 130–134). -/
def weekBlock (role : List Char) (week : Nat) (title : List Char) : List Char :=
  "\nWeek ".data ++ natToChars week ++ ":\n- Focus: ".data ++ title ++
    "\n- Study the concept in depth\n- Complete practice exercises\n- Work on ".data ++
    role ++ "-specific implementation\n".data

/-- The `for (let week = 1; week <= weeks; week++)` rendering loop
(source lines 123–136). -/
def renderWeeks (rc : List (List Char)) (role : List Char) (weeks : Nat) : List Char :=
  ((List.range weeks).map (fun i => weekBlock role (i + 1) (titleForWeek rc (i + 1)))).flatten

/-- `generateWeeklyPlan(concepts, role, weeks, focusAreas)` (source lines
103–137).  The `throw` of the no-match branch becomes `Except.error`. -/
def generateWeeklyPlan (concepts : List Char) (role : List Char) (weeks : Nat)
    (focusAreas : List (List Char)) : Except (List Char) (List Char) :=
  let lines := splitOnChar '\n' concepts
  let relevantConcepts := relevantConceptsOf lines focusAreas
  if relevantConcepts.length = 0 then
    .error (noMatchMsg focusAreas lines)
  else
    .ok (renderWeeks relevantConcepts role weeks)

/-- The week-to-topic assignment carried out by the loop: entry `w` pairs the
week number with `relevantConcepts[(week - 1) % relevantConcepts.length]`. -/
def scheduleEntries (rc : List (List Char)) (weeks : Nat) : List (Nat × List Char) :=
  (List.range weeks).map (fun i =>
    let week := i + 1
    (week, (rc.get? ((week - 1) % rc.length)).getD []))

/-! ## Server layer: paths, tool handler, resource handlers, input schema

`__dirname` is modelled as the list of path segments of an absolute
directory.  `path.join(a, '..')` drops the last segment, `path.join(a, b)`
appends one, and the joined path renders as `"/" ++ segments joined by "/"`,
which is what the `startsWith` sandbox test of source lines 53–57 compares. -/

/-- Render an absolute path from its segments, as `path.join` returns it. -/
def renderPath (segs : List (List Char)) : List Char :=
  '/' :: intercalateList ['/'] segs

/-- `path.join(__dirname, '..')` (source line 44). -/
def projectRootSegs (dirname : List (List Char)) : List (List Char) :=
  dirname.dropLast

/-- `path.join(projectRoot, 'src')` (source line 54). -/
def srcDirSegs (dirname : List (List Char)) : List (List Char) :=
  projectRootSegs dirname ++ ["src".data]

/-- `path.join(projectRoot, 'src', 'concepts.md')` (source line 45). -/
def conceptsPathSegs (dirname : List (List Char)) : List (List Char) :=
  projectRootSegs dirname ++ ["src".data, "concepts.md".data]

/-- `path.join(projectRoot, 'src', 'study-plan.md')` (source line 46). -/
def studyPlanPathSegs (dirname : List (List Char)) : List (List Char) :=
  projectRootSegs dirname ++ ["src".data, "study-plan.md".data]

/-- The sandbox test of source line 55:
`conceptsPath.startsWith(srcDir) && studyPlanPath.startsWith(srcDir)`
(the source negates and ORs; this is the passing condition). -/
def sandboxCheckPasses (dirname : List (List Char)) : Bool :=
  startsWithList (renderPath (conceptsPathSegs dirname)) (renderPath (srcDirSegs dirname)) &&
    startsWithList (renderPath (studyPlanPathSegs dirname)) (renderPath (srcDirSegs dirname))

/-- `role.toUpperCase()`. -/
def toUpperList (l : List Char) : List Char := l.map Char.toUpper

/-- The fixed body of the study-plan document around the weekly breakdown
(source lines 62–76, exact template text including indentation). -/
def studyPlanContent (role : List Char) (today : List Char) (weeksStr : List Char)
    (focusAreas : List (List Char)) (weekly : List Char) : List Char :=
  "# Study Plan for ".data ++ toUpperList role ++ " Developer\n        Generated on: ".data ++
    today ++ "\n        Duration: ".data ++ weeksStr ++
    " weeks\n\n        ## Focus Areas\n        ".data ++
    intercalateList ['\n'] (focusAreas.map (fun area => "- ".data ++ area)) ++
    "\n\n        ## Weekly Breakdown\n        ".data ++ weekly ++
    "\n\n        ## Resources\n        - Concepts from concepts.md\n        - Industry best practices\n        - Hands-on projects\n        ".data

/-- The catch-branch response text (source lines 89–97). -/
def errorResponseText (msg : List Char) : List Char :=
  "Error generating study plan: ".data ++ msg ++
    "\nPlease check the server logs for more details.".data

/-- The success response text (source lines 81–88): fixed message plus the
first 500 characters of the rendered document. -/
def successResponseText (content : List Char) : List Char :=
  "Study plan generated successfully! Check study-plan.md for details.\n            Preview:\n            ".data ++
    content.take 500 ++ "...".data

/-- Result of one `generateStudyPlan` tool invocation: the text returned to
the caller, and the content written to `study-plan.md` (`none` when no write
was performed). -/
structure ToolResult where
  text : List Char
  written : Option (List Char)
  deriving Repr, DecidableEq

/-- Continuation of the tool handler after `generateWeeklyPlan`: a throw
lands in the catch branch, success renders, writes and returns the preview
(source lines 62–97). -/
def planBranch (role today weeksStr : List Char) (focusAreas : List (List Char)) :
    Except (List Char) (List Char) → ToolResult
  | .error e => { text := errorResponseText e, written := none }
  | .ok weekly =>
    let content := studyPlanContent role today weeksStr focusAreas weekly
    { text := successResponseText content, written := some content }

/-- Continuation of the tool handler after the `fs.readFile` of the
knowledge base: a read failure lands in the catch branch (source lines
59 and 89–97). -/
def readBranch (role : List Char) (weeksDuration : Nat)
    (focusAreas : List (List Char)) (today : List Char) :
    Except (List Char) (List Char) → ToolResult
  | .error e => { text := errorResponseText e, written := none }
  | .ok conceptsContent =>
    planBranch role today (natToChars weeksDuration) focusAreas
      (generateWeeklyPlan conceptsContent role weeksDuration focusAreas)

/-- The `generateStudyPlan` tool handler (source lines 34–99).  File I/O is
passed in as `fsRead : path → Except error content`; every `throw` inside the
`try` block lands in the catch branch, which builds `errorResponseText`.
The write of line 79 is recorded in `written`. -/
def generateStudyPlanTool (dirname : List (List Char))
    (fsRead : List Char → Except (List Char) (List Char))
    (role : List Char) (weeksDuration : Nat) (focusAreas : List (List Char))
    (today : List Char) : ToolResult :=
  if sandboxCheckPasses dirname then
    readBranch role weeksDuration focusAreas today
      (fsRead (renderPath (conceptsPathSegs dirname)))
  else
    { text := errorResponseText "Access denied: Can only access files in src directory".data,
      written := none }

/-- State of the persisted plan document after a tool call: unchanged unless
the handler performed its write. -/
def applyWrite (store : Option (List Char)) (r : ToolResult) : Option (List Char) :=
  match r.written with
  | some c => some c
  | none => store

/-- Fallback text of the `concepts://src` handler (source line 179). -/
def conceptsPlaceholder : List Char :=
  "# Software Engineering Concepts\n\nNo concepts available yet.".data

/-- Fallback text of the `study-plan://src` handler (source line 210). -/
def studyPlanPlaceholder : List Char :=
  "# Software Engineering Study Plan\n\nNo study plan available yet.".data

/-- The `concepts://src` resource handler (source lines 164–183): reads
`path.join(__dirname, 'concepts.md')` with no sandbox test; any read failure
is replaced by the placeholder.  The returned value is always content, never
an error. -/
def conceptsResource (dirname : List (List Char))
    (fsRead : List Char → Except (List Char) (List Char)) : List Char :=
  match fsRead (renderPath (dirname ++ ["concepts.md".data])) with
  | .ok content => content
  | .error _ => conceptsPlaceholder

/-- The `study-plan://src` resource handler (source lines 195–214). -/
def studyPlanResource (dirname : List (List Char))
    (fsRead : List Char → Except (List Char) (List Char)) : List Char :=
  match fsRead (renderPath (dirname ++ ["study-plan.md".data])) with
  | .ok content => content
  | .error _ => studyPlanPlaceholder

/-- The five role strings of `z.enum` (source line 29). -/
def validRoles : List String :=
  ["frontend", "backend", "fullstack", "devops", "ml-engineer"]

/-- The boundary input schema (source lines 28–32):
`z.enum([...])`, `z.number().min(1).max(52)`,
`z.array(z.string()).min(1).max(5)`.  `weeksDuration` is a JavaScript
number, modelled as a rational; note the absence of an integrality test. -/
def validFocusRequest (role : String) (weeksDuration : ℚ)
    (focusAreas : List String) : Bool :=
  (validRoles.contains role) && (1 ≤ weeksDuration) && (weeksDuration ≤ 52) &&
    (1 ≤ focusAreas.length) && (focusAreas.length ≤ 5)

/-! ## Week-block recovery (the re-scan of claim C5)

`recoverWeekBlocks` scans the lines of a rendered weekly section: a line of
the exact shape `Week <digits>:` opens a block and the immediately following
`- Focus: <title>` line names its topic. -/

/-- `digits → number` for the scanner. -/
def digitsToNat (ds : List Char) : Nat :=
  ds.foldl (fun a c => a * 10 + (c.toNat - 48)) 0

/-- Recognize a line of the exact shape `Week <digits>:`. -/
def parseWeekHeader (line : List Char) : Option Nat :=
  match dropStart "Week ".data line with
  | none => none
  | some rest =>
    let ds := rest.takeWhile Char.isDigit
    if ds.isEmpty then none
    else if rest.dropWhile Char.isDigit = [':'] then some (digitsToNat ds)
    else none

/-- Recognize a line of the shape `- Focus: <title>` and return the title. -/
def parseFocusLine (line : List Char) : Option (List Char) :=
  dropStart "- Focus: ".data line

/-- Scan a line list for week blocks: a `Week n:` header followed by a
`- Focus: t` line yields the pair `(n, t)`. -/
def recoverWeekBlocks : List (List Char) → List (Nat × List Char)
  | [] => []
  | [_] => []
  | line :: focusLine :: rest2 =>
    match parseWeekHeader line with
    | some w =>
      match parseFocusLine focusLine with
      | some t => (w, t) :: recoverWeekBlocks rest2
      | none => recoverWeekBlocks (focusLine :: rest2)
    | none => recoverWeekBlocks (focusLine :: rest2)

/-! ## Helper lemmas -/

theorem startsWithList_iff (l s : List Char) :
    startsWithList l s = true ↔ ∃ t, l = s ++ t := by
  induction s generalizing l with
  | nil => simp [startsWithList]
  | cons d ds ih =>
    cases l with
    | nil => simp [startsWithList]
    | cons c cs =>
      simp only [startsWithList, Bool.and_eq_true, decide_eq_true_eq, ih, List.cons_append]
      constructor
      · rintro ⟨rfl, t, rfl⟩; exact ⟨t, rfl⟩
      · rintro ⟨t, h⟩
        injection h with h1 h2
        exact ⟨h1, t, h2⟩

theorem startsWithList_append (s t : List Char) :
    startsWithList (s ++ t) s = true := by
  exact (startsWithList_iff _ _).2 ⟨t, rfl⟩

theorem containsList_iff (l s : List Char) :
    containsList l s = true ↔ ∃ u v, l = u ++ s ++ v := by
  induction l with
  | nil =>
    simp only [containsList, startsWithList_iff]
    constructor
    · rintro ⟨t, h⟩; exact ⟨[], t, h⟩
    · rintro ⟨u, v, h⟩
      cases u with
      | nil => exact ⟨v, by simpa using h⟩
      | cons a b => simp at h
  | cons c cs ih =>
    simp only [containsList, Bool.or_eq_true, startsWithList_iff, ih]
    constructor
    · rintro (⟨t, h⟩ | ⟨u, v, h⟩)
      · exact ⟨[], t, by simpa using h⟩
      · exact ⟨c :: u, v, by simp [h]⟩
    · rintro ⟨u, v, h⟩
      cases u with
      | nil => exact .inl ⟨v, by simpa using h⟩
      | cons a b =>
        simp only [List.cons_append, List.cons.injEq] at h
        exact .inr ⟨b, v, h.2⟩

theorem dropStart_append (p l : List Char) : dropStart p (p ++ l) = some l := by
  induction p with
  | nil => rfl
  | cons d ds ih => simp [dropStart, ih]

theorem splitOnChar_ne_nil (sep : Char) (l : List Char) : splitOnChar sep l ≠ [] := by
  cases l with
  | nil => simp [splitOnChar]
  | cons c cs =>
    simp only [splitOnChar]
    by_cases h : c = sep
    · simp [h]
    · simp only [h, if_false]
      cases splitOnChar sep cs <;> simp

theorem splitOnChar_cons_sep (sep : Char) (l : List Char) :
    splitOnChar sep (sep :: l) = [] :: splitOnChar sep l := by
  simp [splitOnChar]

theorem splitOnChar_cons_ne (sep c : Char) (l : List Char) (h : c ≠ sep) :
    splitOnChar sep (c :: l) =
      (c :: (splitOnChar sep l).headD []) :: (splitOnChar sep l).tail := by
  simp only [splitOnChar, h, if_false]
  cases hs : splitOnChar sep l with
  | nil => exact absurd hs (splitOnChar_ne_nil sep l)
  | cons a b => rfl

theorem splitOnChar_break (sep : Char) (x y : List Char) (hx : sep ∉ x) :
    splitOnChar sep (x ++ sep :: y) = x :: splitOnChar sep y := by
  induction x with
  | nil => simpa using splitOnChar_cons_sep sep y
  | cons c cs ih =>
    have hc : c ≠ sep := fun h => hx (h ▸ List.mem_cons_self c cs)
    have ih' := ih (fun h => hx (List.mem_cons_of_mem c h))
    rw [List.cons_append, splitOnChar_cons_ne sep c _ hc, ih']
    rfl

theorem splitOnChar_head? (sep : Char) (l : List Char) :
    (splitOnChar sep l).head? = some (l.takeWhile (fun c => !(c == sep))) := by
  induction l with
  | nil => simp [splitOnChar, List.takeWhile]
  | cons c cs ih =>
    by_cases h : c = sep
    · subst h
      rw [splitOnChar_cons_sep]
      simp [List.takeWhile_cons]
    · rw [splitOnChar_cons_ne sep c cs h]
      cases hs : splitOnChar sep cs with
      | nil => exact absurd hs (splitOnChar_ne_nil sep cs)
      | cons a b =>
        rw [hs] at ih
        simp only [List.head?_cons, Option.some.injEq] at ih
        simp only [List.headD_cons, List.head?_cons, List.takeWhile_cons, Option.some.injEq]
        have hb : (!(c == sep)) = true := by simpa using h
        rw [hb, ih]
        simp

theorem splitOnChar_headD (sep : Char) (l : List Char) (d : List Char) :
    (splitOnChar sep l).headD d = l.takeWhile (fun c => !(c == sep)) := by
  cases hs : splitOnChar sep l with
  | nil => exact absurd hs (splitOnChar_ne_nil sep l)
  | cons a b =>
    have h := splitOnChar_head? sep l
    rw [hs] at h
    simp only [List.head?_cons, Option.some.injEq] at h
    simpa using h

theorem dropWhile_all_append (p : Char → Bool) (a b : List Char)
    (h : ∀ c ∈ a, p c = true) : (a ++ b).dropWhile p = b.dropWhile p := by
  induction a with
  | nil => rfl
  | cons c cs ih =>
    have hc := h c (List.mem_cons_self c cs)
    simp only [List.cons_append, List.dropWhile_cons, hc, if_true]
    exact ih (fun x hx => h x (List.mem_cons_of_mem c hx))

theorem dropWhile_cons_false (p : Char → Bool) (c : Char) (l : List Char)
    (h : p c = false) : (c :: l).dropWhile p = c :: l := by
  simp [List.dropWhile_cons, h]

theorem takeWhile_all_append (p : Char → Bool) (a b : List Char)
    (h : ∀ c ∈ a, p c = true) : (a ++ b).takeWhile p = a ++ b.takeWhile p := by
  induction a with
  | nil => rfl
  | cons c cs ih =>
    have hc := h c (List.mem_cons_self c cs)
    simp only [List.cons_append, List.takeWhile_cons, hc, if_true, List.cons.injEq, true_and]
    exact ih (fun x hx => h x (List.mem_cons_of_mem c hx))

theorem takeWhile_cons_false (p : Char → Bool) (c : Char) (l : List Char)
    (h : p c = false) : (c :: l).takeWhile p = [] := by
  simp [List.takeWhile_cons, h]

theorem mem_of_mem_takeWhile {p : Char → Bool} {l : List Char} {c : Char}
    (h : c ∈ l.takeWhile p) : c ∈ l :=
  (List.takeWhile_sublist p).mem h

theorem mem_of_mem_dropWhile {p : Char → Bool} {l : List Char} {c : Char}
    (h : c ∈ l.dropWhile p) : c ∈ l :=
  (List.dropWhile_sublist p).mem h

theorem space_not_digit {c : Char} (h : isJsSpace c = true) : c.isDigit = false := by
  simp only [isJsSpace, Bool.or_eq_true, decide_eq_true_eq] at h
  rcases h with ((((((h | h) | h) | h) | h) | h) | h) | h <;> subst h <;> decide

theorem digit_not_space {c : Char} (h : c.isDigit = true) : isJsSpace c = false := by
  cases hs : isJsSpace c with
  | false => rfl
  | true => rw [space_not_digit hs] at h; cases h

theorem mem_intercalate_infix (sep : List Char) (x : List Char)
    (L : List (List Char)) (h : x ∈ L) :
    ∃ u v, intercalateList sep L = u ++ x ++ v := by
  induction L with
  | nil => cases h
  | cons y t ih =>
    cases t with
    | nil =>
      simp only [List.mem_singleton] at h
      subst h
      exact ⟨[], [], by simp [intercalateList]⟩
    | cons z t' =>
      rcases List.mem_cons.mp h with rfl | hmem
      · exact ⟨[], sep ++ intercalateList sep (z :: t'), by simp [intercalateList]⟩
      · obtain ⟨u, v, hu⟩ := ih hmem
        exact ⟨y ++ sep ++ u, v, by simp [intercalateList, hu]⟩

theorem intercalate_append_single (sep : List Char) (L : List (List Char))
    (x : List Char) (h : L ≠ []) :
    intercalateList sep (L ++ [x]) = intercalateList sep L ++ sep ++ x := by
  induction L with
  | nil => exact absurd rfl h
  | cons y t ih =>
    cases t with
    | nil => simp [intercalateList]
    | cons z t' =>
      have hstep : intercalateList sep (y :: z :: (t' ++ [x])) =
          y ++ sep ++ intercalateList sep (z :: (t' ++ [x])) := rfl
      have hy : intercalateList sep (y :: z :: t') =
          y ++ sep ++ intercalateList sep (z :: t') := rfl
      rw [List.cons_append, List.cons_append, hstep, hy]
      have := ih (by simp)
      rw [List.cons_append] at this
      rw [this]
      simp [List.append_assoc]

theorem filter_and_split (p q : List Char → Bool) (l : List (List Char)) :
    l.filter (fun a => p a && q a) = (l.filter p).filter q := by
  induction l with
  | nil => rfl
  | cons a t ih => cases hp : p a <;> cases hq : q a <;> simp [List.filter_cons, hp, hq, ih]

theorem dropWhile_self_dropWhile (p : Char → Bool) (l : List Char) :
    (l.dropWhile p).dropWhile p = l.dropWhile p := by
  induction l with
  | nil => rfl
  | cons c cs ih =>
    by_cases h : p c = true
    · simp [List.dropWhile_cons, h, ih]
    · have h' : p c = false := by simpa using h
      simp [List.dropWhile_cons, h']

theorem dropWhile_append_ne_nil (p : Char → Bool) (x y : List Char)
    (h : x.dropWhile p ≠ []) : (x ++ y).dropWhile p = x.dropWhile p ++ y := by
  induction x with
  | nil => exact absurd rfl h
  | cons c cs ih =>
    by_cases hc : p c = true
    · have h' : cs.dropWhile p ≠ [] := by
        rwa [List.dropWhile_cons_of_pos hc] at h
      rw [List.cons_append, List.dropWhile_cons_of_pos hc, List.dropWhile_cons_of_pos hc,
        ih h']
    · have hc' : p c = false := by simpa using hc
      rw [List.cons_append, dropWhile_cons_false p c _ hc', dropWhile_cons_false p c _ hc',
        List.cons_append]

theorem dropTrailingWs_append (u l : List Char) :
    ∃ u', dropTrailingWs (u ++ l) = u' ++ dropTrailingWs l := by
  unfold dropTrailingWs
  rw [List.reverse_append]
  by_cases hd : l.reverse.dropWhile isJsSpace = []
  · refine ⟨(u.reverse.dropWhile isJsSpace).reverse, ?_⟩
    rw [dropWhile_all_append isJsSpace l.reverse u.reverse
      (List.dropWhile_eq_nil_iff.mp hd), hd]
    simp
  · refine ⟨u, ?_⟩
    rw [dropWhile_append_ne_nil isJsSpace _ _ hd, List.reverse_append, List.reverse_reverse]

theorem strip_cases (l : List Char) :
    stripTopicHead l = l ∨
    ((∃ t, l = 'K' :: t) ∧ (∃ a, l = a ++ stripTopicHead l) ∧
      (∃ r : List Char, stripTopicHead l = r.dropWhile isJsSpace)) := by
  cases l with
  | nil => exact .inl rfl
  | cons c1 t =>
    cases t with
    | nil => exact .inl rfl
    | cons c2 rest =>
      by_cases hKA : (c1 == 'K' && c2 == 'A') = true
      · by_cases hds : ((rest.dropWhile isJsSpace).takeWhile Char.isDigit).isEmpty = true
        · left; simp [stripTopicHead, hKA, hds]
        · cases hr3 : ((rest.dropWhile isJsSpace).dropWhile Char.isDigit).dropWhile isJsSpace with
          | nil => left; simp [stripTopicHead, hKA, hds, hr3]
          | cons c r2 =>
            by_cases hdash : (c == '-') = true
            · right
              have hc1 : c1 = 'K' := by
                have := (Bool.and_eq_true _ _).mp hKA
                simpa using this.1
              have hstrip : stripTopicHead (c1 :: c2 :: rest) = r2.dropWhile isJsSpace := by
                simp [stripTopicHead, hKA, hds, hr3, hdash]
              refine ⟨⟨c2 :: rest, by rw [hc1]⟩, ?_, ⟨r2, hstrip⟩⟩
              have e1 : rest = rest.takeWhile isJsSpace ++ rest.dropWhile isJsSpace :=
                (List.takeWhile_append_dropWhile (p := isJsSpace) (l := rest)).symm
              have e2 : rest.dropWhile isJsSpace =
                  (rest.dropWhile isJsSpace).takeWhile Char.isDigit ++
                    (rest.dropWhile isJsSpace).dropWhile Char.isDigit :=
                (List.takeWhile_append_dropWhile (p := Char.isDigit)
                  (l := rest.dropWhile isJsSpace)).symm
              have e3 : (rest.dropWhile isJsSpace).dropWhile Char.isDigit =
                  ((rest.dropWhile isJsSpace).dropWhile Char.isDigit).takeWhile isJsSpace ++
                    (c :: r2) := by
                conv_lhs => rw [← List.takeWhile_append_dropWhile
                  (p := isJsSpace) (l := (rest.dropWhile isJsSpace).dropWhile Char.isDigit)]
                rw [hr3]
              have e4 : r2 = r2.takeWhile isJsSpace ++ r2.dropWhile isJsSpace :=
                (List.takeWhile_append_dropWhile (p := isJsSpace) (l := r2)).symm
              refine ⟨c1 :: c2 :: (rest.takeWhile isJsSpace ++
                (rest.dropWhile isJsSpace).takeWhile Char.isDigit ++
                (((rest.dropWhile isJsSpace).dropWhile Char.isDigit).takeWhile isJsSpace ++
                  (c :: r2.takeWhile isJsSpace))), ?_⟩
              rw [hstrip]
              conv_lhs => rw [e1, e2, e3]
              conv_lhs => rw [e4]
              simp [List.append_assoc]
            · left; simp [stripTopicHead, hKA, hds, hr3, hdash]
      · left
        simp [stripTopicHead, hKA]

theorem strip_decomp (l : List Char) : ∃ a, l = a ++ stripTopicHead l := by
  rcases strip_cases l with h | ⟨_, h, _⟩
  · exact ⟨[], by rw [h]; rfl⟩
  · exact h

theorem trim_strip_suffix (p : List Char) :
    ∃ u, jsTrim p = u ++ jsTrim (stripTopicHead p) := by
  rcases strip_cases p with h | ⟨⟨t, rfl⟩, ⟨a, ha⟩, ⟨r, hr⟩⟩
  · exact ⟨[], by rw [h]; rfl⟩
  · obtain ⟨u', hu⟩ := dropTrailingWs_append a (stripTopicHead ('K' :: t))
    refine ⟨u', ?_⟩
    have h1 : ('K' :: t).dropWhile isJsSpace = 'K' :: t :=
      dropWhile_cons_false _ _ _ (by decide)
    have h2 : (stripTopicHead ('K' :: t)).dropWhile isJsSpace =
        stripTopicHead ('K' :: t) := by
      rw [hr]; exact dropWhile_self_dropWhile _ _
    calc jsTrim ('K' :: t) = dropTrailingWs (('K' :: t).dropWhile isJsSpace) := rfl
      _ = dropTrailingWs ('K' :: t) := by rw [h1]
      _ = dropTrailingWs (a ++ stripTopicHead ('K' :: t)) := by rw [← ha]
      _ = u' ++ dropTrailingWs (stripTopicHead ('K' :: t)) := hu
      _ = u' ++ jsTrim (stripTopicHead ('K' :: t)) := by
          unfold jsTrim; rw [h2]

theorem isTopicLine_iff (line : List Char) :
    isTopicLine line = true ↔
      ∃ ws1 ds ws2 rest, line = 'K' :: 'A' :: (ws1 ++ (ds ++ (ws2 ++ '-' :: rest))) ∧
        (∀ c ∈ ws1, isJsSpace c = true) ∧ ds ≠ [] ∧
        (∀ c ∈ ds, Char.isDigit c = true) ∧ (∀ c ∈ ws2, isJsSpace c = true) := by
  constructor
  · intro h
    match line with
    | [] => simp [isTopicLine] at h
    | [c1] => simp [isTopicLine] at h
    | c1 :: c2 :: rest =>
      simp only [isTopicLine, Bool.and_eq_true, beq_iff_eq] at h
      obtain ⟨⟨hc1, hc2⟩, hbody⟩ := h
      subst hc1; subst hc2
      obtain ⟨hds, hmatch⟩ := hbody
      cases hr3 : ((rest.dropWhile isJsSpace).dropWhile Char.isDigit).dropWhile isJsSpace with
      | nil => rw [hr3] at hmatch; cases hmatch
      | cons c r2 =>
        rw [hr3] at hmatch
        have hc : c = '-' := by simpa using hmatch
        subst hc
        refine ⟨rest.takeWhile isJsSpace,
          (rest.dropWhile isJsSpace).takeWhile Char.isDigit,
          ((rest.dropWhile isJsSpace).dropWhile Char.isDigit).takeWhile isJsSpace,
          r2, ?_, ?_, ?_, ?_, ?_⟩
        · have e1 : rest = rest.takeWhile isJsSpace ++ rest.dropWhile isJsSpace :=
            (List.takeWhile_append_dropWhile (p := isJsSpace) (l := rest)).symm
          have e2 : rest.dropWhile isJsSpace =
              (rest.dropWhile isJsSpace).takeWhile Char.isDigit ++
                (rest.dropWhile isJsSpace).dropWhile Char.isDigit :=
            (List.takeWhile_append_dropWhile (p := Char.isDigit)
              (l := rest.dropWhile isJsSpace)).symm
          have e3 : (rest.dropWhile isJsSpace).dropWhile Char.isDigit =
              ((rest.dropWhile isJsSpace).dropWhile Char.isDigit).takeWhile isJsSpace ++
                ('-' :: r2) := by
            conv_lhs => rw [← List.takeWhile_append_dropWhile
              (p := isJsSpace) (l := (rest.dropWhile isJsSpace).dropWhile Char.isDigit)]
            rw [hr3]
          conv_lhs => rw [e1, e2, e3]
        · exact fun c hc => List.mem_takeWhile_imp hc
        · intro hnil
          rw [hnil] at hds
          cases hds
        · exact fun c hc => List.mem_takeWhile_imp hc
        · exact fun c hc => List.mem_takeWhile_imp hc
  · rintro ⟨ws1, ds, ws2, rest, rfl, hws1, hds, hdig, hws2⟩
    cases ds with
    | nil => exact absurd rfl hds
    | cons d ds' =>
      have hd : Char.isDigit d = true := hdig d (List.mem_cons_self d ds')
      have hds' : ∀ c ∈ ds', Char.isDigit c = true :=
        fun c hc => hdig c (List.mem_cons_of_mem d hc)
      have hr1 : (ws1 ++ ((d :: ds') ++ (ws2 ++ '-' :: rest))).dropWhile isJsSpace =
          d :: (ds' ++ (ws2 ++ '-' :: rest)) := by
        rw [dropWhile_all_append isJsSpace ws1 _ hws1]
        exact dropWhile_cons_false isJsSpace d _ (digit_not_space hd)
      have htail_take : (ws2 ++ '-' :: rest).takeWhile Char.isDigit = [] := by
        cases ws2 with
        | nil => exact takeWhile_cons_false _ _ _ (by decide)
        | cons w ws' =>
          exact takeWhile_cons_false _ _ _
            (space_not_digit (hws2 w (List.mem_cons_self w ws')))
      have htail_drop : (ws2 ++ '-' :: rest).dropWhile Char.isDigit = ws2 ++ '-' :: rest := by
        cases ws2 with
        | nil => exact dropWhile_cons_false _ _ _ (by decide)
        | cons w ws' =>
          exact dropWhile_cons_false _ _ _
            (space_not_digit (hws2 w (List.mem_cons_self w ws')))
      have htake : (d :: (ds' ++ (ws2 ++ '-' :: rest))).takeWhile Char.isDigit =
          d :: ds' := by
        rw [List.takeWhile_cons_of_pos hd,
          takeWhile_all_append Char.isDigit ds' _ hds', htail_take]
        simp
      have hdrop : (d :: (ds' ++ (ws2 ++ '-' :: rest))).dropWhile Char.isDigit =
          ws2 ++ '-' :: rest := by
        rw [List.dropWhile_cons_of_pos hd,
          dropWhile_all_append Char.isDigit ds' _ hds', htail_drop]
      have hdrop2 : (ws2 ++ '-' :: rest).dropWhile isJsSpace = '-' :: rest := by
        rw [dropWhile_all_append isJsSpace ws2 _ hws2]
        exact dropWhile_cons_false _ _ _ (by decide)
      simp only [isTopicLine, Bool.and_eq_true, beq_iff_eq]
      exact ⟨by simp, by rw [hr1, htake, hdrop, hdrop2]; simp⟩

theorem renderPath_append_single (segs : List (List Char)) (x : List Char)
    (h : segs ≠ []) :
    renderPath (segs ++ [x]) = renderPath segs ++ '/' :: x := by
  unfold renderPath
  rw [intercalate_append_single ['/'] segs x h]
  simp

theorem srcDirSegs_ne_nil (dirname : List (List Char)) : srcDirSegs dirname ≠ [] := by
  unfold srcDirSegs projectRootSegs
  simp

/-- The `startsWith` sandbox test of source line 55 passes for every value of
`__dirname`: both constant paths extend the `src` directory path by one
segment. -/
theorem sandbox_always_passes (dirname : List (List Char)) :
    sandboxCheckPasses dirname = true := by
  unfold sandboxCheckPasses
  have hc : conceptsPathSegs dirname = srcDirSegs dirname ++ ["concepts.md".data] := by
    unfold conceptsPathSegs srcDirSegs
    simp
  have hs : studyPlanPathSegs dirname = srcDirSegs dirname ++ ["study-plan.md".data] := by
    unfold studyPlanPathSegs srcDirSegs
    simp
  rw [hc, hs, renderPath_append_single _ _ (srcDirSegs_ne_nil dirname),
    renderPath_append_single _ _ (srcDirSegs_ne_nil dirname),
    startsWithList_append, startsWithList_append]
  rfl

/-- For every admissible week number the printed header line parses back to
the same number and its digits contain no newline. -/
theorem weekNum_ok : ∀ w : Nat, w < 53 →
    parseWeekHeader ("Week ".data ++ natToChars w ++ [':']) = some w ∧
      '\n' ∉ natToChars w := by decide

theorem weekBlock_decomp (role : List Char) (w : Nat) (t : List Char) (rest : List Char) :
    weekBlock role w t ++ rest =
      '\n' :: (("Week ".data ++ (natToChars w ++ [':'])) ++ '\n' ::
        (("- Focus: ".data ++ t) ++ '\n' ::
          ("- Study the concept in depth".data ++ '\n' ::
            ("- Complete practice exercises".data ++ '\n' ::
              (("- Work on ".data ++ (role ++ "-specific implementation".data)) ++
                '\n' :: rest))))) := by
  have A : ("\nWeek ".data : List Char) = '\n' :: "Week ".data := rfl
  have B : ((":\n- Focus: ".data : List Char)) = ':' :: '\n' :: "- Focus: ".data := rfl
  have C : (("\n- Study the concept in depth\n- Complete practice exercises\n- Work on ".data :
      List Char)) = '\n' :: ("- Study the concept in depth".data ++
        '\n' :: ("- Complete practice exercises".data ++ '\n' :: "- Work on ".data)) := rfl
  have D : (("-specific implementation\n".data : List Char)) =
      "-specific implementation".data ++ ['\n'] := rfl
  rw [weekBlock, A, B, C, D]
  simp [List.append_assoc]

theorem conceptForWeek_get (rc : List (List Char)) (week : Nat) (hrc : rc ≠ []) :
    ∃ h : (week - 1) % rc.length < rc.length,
      conceptForWeek rc week = rc.get ⟨(week - 1) % rc.length, h⟩ := by
  have hlen : 0 < rc.length := List.length_pos.mpr hrc
  have hlt : (week - 1) % rc.length < rc.length := Nat.mod_lt _ hlen
  refine ⟨hlt, ?_⟩
  unfold conceptForWeek
  rw [List.get?_eq_get hlt]
  rfl

theorem mem_dropTrailingWs {c : Char} {l : List Char} (h : c ∈ dropTrailingWs l) :
    c ∈ l := by
  unfold dropTrailingWs at h
  have h1 : c ∈ l.reverse.dropWhile isJsSpace := List.mem_reverse.mp h
  exact List.mem_reverse.mp (mem_of_mem_dropWhile h1)

theorem mem_jsTrim {c : Char} {l : List Char} (h : c ∈ jsTrim l) : c ∈ l :=
  mem_of_mem_dropWhile (mem_dropTrailingWs h)

theorem mem_stripTopicHead {c : Char} {l : List Char} (h : c ∈ stripTopicHead l) :
    c ∈ l := by
  obtain ⟨a, ha⟩ := strip_decomp l
  rw [ha]
  exact List.mem_append.mpr (.inr h)

theorem titleForWeek_eq (rc : List (List Char)) (week : Nat) :
    titleForWeek rc week =
      jsTrim (stripTopicHead
        ((conceptForWeek rc week).takeWhile (fun c => !(c == ':')))) := by
  unfold titleForWeek
  rw [splitOnChar_head? ':' (conceptForWeek rc week)]

theorem titleForWeek_no_newline (rc : List (List Char)) (week : Nat)
    (hrc : rc ≠ []) (hlines : ∀ l ∈ rc, '\n' ∉ l) :
    '\n' ∉ titleForWeek rc week := by
  intro hmem
  rw [titleForWeek_eq] at hmem
  have h1 := mem_of_mem_takeWhile (mem_stripTopicHead (mem_jsTrim hmem))
  obtain ⟨hlt, hc⟩ := conceptForWeek_get rc week hrc
  rw [hc] at h1
  exact hlines _ (rc.get_mem _ _) h1

theorem split_weekBlock (role : List Char) (w : Nat) (t rest : List Char)
    (hw : '\n' ∉ natToChars w) (ht : '\n' ∉ t) (hrole : '\n' ∉ role) :
    splitOnChar '\n' (weekBlock role w t ++ rest) =
      [] :: ("Week ".data ++ (natToChars w ++ [':'])) ::
        ("- Focus: ".data ++ t) ::
        "- Study the concept in depth".data ::
        "- Complete practice exercises".data ::
        ("- Work on ".data ++ (role ++ "-specific implementation".data)) ::
        splitOnChar '\n' rest := by
  have h1 : '\n' ∉ ("Week ".data ++ (natToChars w ++ [':'])) := by
    intro hmem
    rcases List.mem_append.mp hmem with h | h
    · exact absurd h (by decide)
    · rcases List.mem_append.mp h with h' | h'
      · exact hw h'
      · exact absurd h' (by decide)
  have h2 : '\n' ∉ ("- Focus: ".data ++ t) := by
    intro hmem
    rcases List.mem_append.mp hmem with h | h
    · exact absurd h (by decide)
    · exact ht h
  have h5 : '\n' ∉ ("- Work on ".data ++ (role ++ "-specific implementation".data)) := by
    intro hmem
    rcases List.mem_append.mp hmem with h | h
    · exact absurd h (by decide)
    · rcases List.mem_append.mp h with h' | h'
      · exact hrole h'
      · exact absurd h' (by decide)
  rw [weekBlock_decomp, splitOnChar_cons_sep,
    splitOnChar_break '\n' _ _ h1,
    splitOnChar_break '\n' _ _ h2,
    splitOnChar_break '\n' _ _ (by decide),
    splitOnChar_break '\n' _ _ (by decide),
    splitOnChar_break '\n' _ _ h5]

theorem parseWeekHeader_nil : parseWeekHeader [] = none := rfl

theorem parseWeekHeader_dash (x : List Char) : parseWeekHeader ('-' :: x) = none := by
  have : dropStart "Week ".data ('-' :: x) = none := by
    show dropStart ('W' :: "eek ".data) ('-' :: x) = none
    simp [dropStart]
  simp [parseWeekHeader, this]

theorem recover_cons_nonheader (line : List Char) (rest : List (List Char))
    (h : parseWeekHeader line = none) :
    recoverWeekBlocks (line :: rest) = recoverWeekBlocks rest := by
  cases rest with
  | nil => rfl
  | cons a b => simp [recoverWeekBlocks, h]

theorem recover_cons_block (line focusLine : List Char) (rest : List (List Char))
    (w : Nat) (t : List Char)
    (hh : parseWeekHeader line = some w) (hf : parseFocusLine focusLine = some t) :
    recoverWeekBlocks (line :: focusLine :: rest) = (w, t) :: recoverWeekBlocks rest := by
  simp [recoverWeekBlocks, hh, hf]

theorem recover_flatten (rc : List (List Char)) (role : List Char)
    (hrc : rc ≠ []) (hlines : ∀ l ∈ rc, '\n' ∉ l) (hrole : '\n' ∉ role) :
    ∀ ws : List Nat, (∀ w ∈ ws, w < 53) →
      recoverWeekBlocks (splitOnChar '\n'
        ((ws.map (fun w => weekBlock role w (titleForWeek rc w))).flatten)) =
        ws.map (fun w => (w, titleForWeek rc w)) := by
  intro ws
  induction ws with
  | nil =>
    intro _
    simp only [List.map_nil, List.flatten_nil]
    rfl
  | cons w ws' ih =>
    intro hbound
    have hw53 : w < 53 := hbound w (List.mem_cons_self w ws')
    obtain ⟨hparse, hwnl⟩ := weekNum_ok w hw53
    have ht := titleForWeek_no_newline rc w hrc hlines
    simp only [List.map_cons, List.flatten_cons]
    rw [List.append_assoc] at *
    rw [split_weekBlock role w _ _ hwnl ht hrole]
    rw [recover_cons_nonheader [] _ parseWeekHeader_nil]
    have hparse' : parseWeekHeader ("Week ".data ++ (natToChars w ++ [':'])) = some w := by
      rw [← List.append_assoc]
      exact hparse
    have hfocus : parseFocusLine ("- Focus: ".data ++ titleForWeek rc w) =
        some (titleForWeek rc w) := dropStart_append _ _
    rw [recover_cons_block _ _ _ w _ hparse' hfocus]
    have hskip3 : parseWeekHeader ("- Study the concept in depth".data) = none := by decide
    have hskip4 : parseWeekHeader ("- Complete practice exercises".data) = none := by decide
    have hskip5 : parseWeekHeader
        ("- Work on ".data ++ (role ++ "-specific implementation".data)) = none := by
      show parseWeekHeader ('-' :: (" Work on ".data ++ (role ++
        "-specific implementation".data))) = none
      exact parseWeekHeader_dash _
    rw [recover_cons_nonheader _ _ hskip3, recover_cons_nonheader _ _ hskip4,
      recover_cons_nonheader _ _ hskip5]
    rw [ih (fun x hx => hbound x (List.mem_cons_of_mem w hx))]

/-! ## Claim theorems -/

/-- Claim C1: for every non-empty matched-topic list and every
`weeksDuration` N in [1,52], the scheduling loop produces exactly N entries;
the entry for week w (1 ≤ w ≤ N) carries the matched topic at index
(w-1) mod length, in original order; and the rendered weekly text is
exactly the concatenation of the per-week blocks over those entries (so the
mapping depends only on the matched list and N). -/
theorem claim_C1 (rc : List (List Char)) (role : List Char) (N : Nat)
    (hrc : rc ≠ []) (h1 : 1 ≤ N) (h52 : N ≤ 52) :
    (scheduleEntries rc N).length = N ∧
    (∀ w, 1 ≤ w → w ≤ N →
      ∃ hlt : (w - 1) % rc.length < rc.length,
        (scheduleEntries rc N).get? (w - 1) =
          some (w, rc.get ⟨(w - 1) % rc.length, hlt⟩)) ∧
    renderWeeks rc role N =
      ((scheduleEntries rc N).map
        (fun e => weekBlock role e.1 (titleForWeek rc e.1))).flatten := by
  refine ⟨by simp [scheduleEntries], ?_, ?_⟩
  · intro w hw1 hwN
    have hlen : 0 < rc.length := List.length_pos.mpr hrc
    have hlt : (w - 1) % rc.length < rc.length := Nat.mod_lt _ hlen
    refine ⟨hlt, ?_⟩
    have hwlt : w - 1 < N := by omega
    unfold scheduleEntries
    rw [List.get?_map, List.get?_range hwlt]
    simp only [Option.map_some']
    have hw' : w - 1 + 1 = w := Nat.sub_add_cancel hw1
    simp only [Nat.add_sub_cancel]
    rw [List.get?_eq_get hlt]
    simp [hw']
  · unfold renderWeeks scheduleEntries
    rw [List.map_map]
    rfl

/-- Claim C1 witness at a concrete input. -/
theorem claim_C1_witness :
    (scheduleEntries [['a']] 3).length = 3 ∧
    (∀ w, 1 ≤ w → w ≤ 3 →
      ∃ hlt : (w - 1) % ([['a']] : List (List Char)).length <
          ([['a']] : List (List Char)).length,
        (scheduleEntries [['a']] 3).get? (w - 1) =
          some (w, ([['a']] : List (List Char)).get
            ⟨(w - 1) % ([['a']] : List (List Char)).length, hlt⟩)) ∧
    renderWeeks [['a']] ['b'] 3 =
      ((scheduleEntries [['a']] 3).map
        (fun e => weekBlock ['b'] e.1 (titleForWeek [['a']] e.1))).flatten :=
  claim_C1 [['a']] ['b'] 3 (by simp) (by decide) (by decide)

/-- Claim C3: among topic lines, the matcher keeps exactly the lines for
which some focus-area string is a case-insensitive substring of the whole
raw line, in original order, with no reordering or deduplication (the
result is a filter of the input and hence a sublist). -/
theorem claim_C3 (lines focusAreas : List (List Char)) :
    relevantConceptsOf lines focusAreas =
      (lines.filter isTopicLine).filter (focusMatch focusAreas) ∧
    (∀ line : List Char, focusMatch focusAreas line = true ↔
      ∃ area ∈ focusAreas, ∃ u v, toLowerList line = u ++ toLowerList area ++ v) ∧
    List.Sublist (relevantConceptsOf lines focusAreas) lines := by
  refine ⟨?_, ?_, ?_⟩
  · unfold relevantConceptsOf
    exact filter_and_split _ _ _
  · intro line
    unfold focusMatch
    rw [List.any_eq_true]
    constructor
    · rintro ⟨area, hmem, hc⟩
      obtain ⟨u, v, huv⟩ := (containsList_iff _ _).mp hc
      exact ⟨area, hmem, u, v, huv⟩
    · rintro ⟨area, hmem, u, v, huv⟩
      exact ⟨area, hmem, (containsList_iff _ _).mpr ⟨u, v, huv⟩⟩
  · unfold relevantConceptsOf
    exact List.filter_sublist lines

/-- Claim C4: a line is recognized as a topic entry iff it decomposes as
`K`, `A`, a whitespace run, a non-empty digit run, a whitespace run and a
dash (followed by an arbitrary remainder, which carries the title and the
optional colon-separated body); all other lines are ignored without error,
and the recognized lines are kept in document order. -/
theorem claim_C4 :
    (∀ line : List Char, isTopicLine line = true ↔
      ∃ ws1 ds ws2 rest, line = 'K' :: 'A' :: (ws1 ++ (ds ++ (ws2 ++ '-' :: rest))) ∧
        (∀ c ∈ ws1, isJsSpace c = true) ∧ ds ≠ [] ∧
        (∀ c ∈ ds, Char.isDigit c = true) ∧ (∀ c ∈ ws2, isJsSpace c = true)) ∧
    (∀ text : List Char,
      List.Sublist ((splitOnChar '\n' text).filter isTopicLine)
        (splitOnChar '\n' text) ∧
      ∀ line ∈ (splitOnChar '\n' text).filter isTopicLine, isTopicLine line = true) :=
  ⟨isTopicLine_iff,
   fun _ => ⟨List.filter_sublist _, fun _ h => (List.mem_filter.mp h).2⟩⟩

/-- Claim C10: when the matched list is non-empty, the week index
(week-1) mod length is always in bounds, so the empty-string default of the
concept lookup and the `Review and Practice` fallback title are both
unreachable: the week concept is an actual matched line and the rendered
title is computed from it. -/
theorem claim_C10 (rc : List (List Char)) (week : Nat) (hrc : rc ≠ []) :
    ∃ hlt : (week - 1) % rc.length < rc.length,
      conceptForWeek rc week = rc.get ⟨(week - 1) % rc.length, hlt⟩ ∧
      ∃ p : List Char,
        (splitOnChar ':' (conceptForWeek rc week)).head? = some p ∧
        titleForWeek rc week = jsTrim (stripTopicHead p) := by
  obtain ⟨hlt, hc⟩ := conceptForWeek_get rc week hrc
  exact ⟨hlt, hc, (conceptForWeek rc week).takeWhile (fun c => !(c == ':')),
    splitOnChar_head? _ _, titleForWeek_eq rc week⟩

/-- Claim C10 witness at a concrete input. -/
theorem claim_C10_witness :
    ∃ hlt : (1 - 1) % (["KA 1 - Testing: unit tests".data] : List (List Char)).length <
        (["KA 1 - Testing: unit tests".data] : List (List Char)).length,
      conceptForWeek ["KA 1 - Testing: unit tests".data] 1 =
        (["KA 1 - Testing: unit tests".data] : List (List Char)).get
          ⟨(1 - 1) % (["KA 1 - Testing: unit tests".data] : List (List Char)).length, hlt⟩ ∧
      ∃ p : List Char,
        (splitOnChar ':' (conceptForWeek ["KA 1 - Testing: unit tests".data] 1)).head? =
          some p ∧
        titleForWeek ["KA 1 - Testing: unit tests".data] 1 = jsTrim (stripTopicHead p) :=
  claim_C10 ["KA 1 - Testing: unit tests".data] 1 (by simp)

/-- Claim C2: whenever focus-area filtering leaves no topic, the generator
fails with the no-match error message built from the full unfiltered parse,
and that message contains every topic line's title (first colon-segment,
marker stripped, trimmed) as a substring. -/
theorem claim_C2 (concepts role : List Char) (weeks : Nat)
    (focusAreas : List (List Char))
    (h : relevantConceptsOf (splitOnChar '\n' concepts) focusAreas = []) :
    generateWeeklyPlan concepts role weeks focusAreas =
      .error (noMatchMsg focusAreas (splitOnChar '\n' concepts)) ∧
    ∀ line ∈ splitOnChar '\n' concepts, isTopicLine line = true →
      ∃ u v, noMatchMsg focusAreas (splitOnChar '\n' concepts) =
        u ++ jsTrim (stripTopicHead (line.takeWhile (fun c => !(c == ':')))) ++ v := by
  constructor
  · show (if (relevantConceptsOf (splitOnChar '\n' concepts) focusAreas).length = 0
        then Except.error (noMatchMsg focusAreas (splitOnChar '\n' concepts))
        else Except.ok (renderWeeks
          (relevantConceptsOf (splitOnChar '\n' concepts) focusAreas) role weeks)) =
      Except.error (noMatchMsg focusAreas (splitOnChar '\n' concepts))
    rw [h]
    rfl
  · intro line hmem htl
    have hfil : line ∈ (splitOnChar '\n' concepts).filter isTopicLine :=
      List.mem_filter.mpr ⟨hmem, htl⟩
    have hlab : topicLabel line ∈
        ((splitOnChar '\n' concepts).filter isTopicLine).map topicLabel :=
      List.mem_map_of_mem topicLabel hfil
    obtain ⟨u1, v1, hj⟩ := mem_intercalate_infix (", ".data) (topicLabel line) _ hlab
    obtain ⟨u2, hu2⟩ := trim_strip_suffix (line.takeWhile (fun c => !(c == ':')))
    have hlabel_eq : topicLabel line =
        u2 ++ jsTrim (stripTopicHead (line.takeWhile (fun c => !(c == ':')))) := by
      unfold topicLabel
      rw [splitOnChar_headD ':' line line]
      exact hu2
    refine ⟨"No concepts found matching focus areas: ".data ++
      intercalateList (", ".data) focusAreas ++ ". \nAvailable topics: ".data ++
      u1 ++ u2, v1, ?_⟩
    unfold noMatchMsg availableTopicsStr
    rw [hj, hlabel_eq]
    simp [List.append_assoc]

/-- Claim C2 witness: the spec's Example 3 knowledge base with an unmatched
focus area fails with the message, and the message lists the titles
`Testing` and `Scaling`. -/
theorem claim_C2_witness :
    generateWeeklyPlan
        "KA 1 - Testing: unit tests\nKA 2 - Scaling: load balancing".data
        "backend".data 2 ["nonexistent-keyword".data] =
      .error (noMatchMsg ["nonexistent-keyword".data]
        (splitOnChar '\n'
          "KA 1 - Testing: unit tests\nKA 2 - Scaling: load balancing".data)) ∧
    (∃ u v, noMatchMsg ["nonexistent-keyword".data]
        (splitOnChar '\n'
          "KA 1 - Testing: unit tests\nKA 2 - Scaling: load balancing".data) =
      u ++ "Testing".data ++ v) ∧
    (∃ u v, noMatchMsg ["nonexistent-keyword".data]
        (splitOnChar '\n'
          "KA 1 - Testing: unit tests\nKA 2 - Scaling: load balancing".data) =
      u ++ "Scaling".data ++ v) := by
  have h : relevantConceptsOf
      (splitOnChar '\n'
        "KA 1 - Testing: unit tests\nKA 2 - Scaling: load balancing".data)
      ["nonexistent-keyword".data] = [] := by decide
  have main := claim_C2
    "KA 1 - Testing: unit tests\nKA 2 - Scaling: load balancing".data
    "backend".data 2 ["nonexistent-keyword".data] h
  refine ⟨main.1, ?_, ?_⟩
  · obtain ⟨u, v, huv⟩ := main.2 "KA 1 - Testing: unit tests".data (by decide) (by decide)
    refine ⟨u, v, ?_⟩
    rw [huv]
    rw [show jsTrim (stripTopicHead
      (("KA 1 - Testing: unit tests".data).takeWhile (fun c => !(c == ':')))) =
      "Testing".data from by decide]
  · obtain ⟨u, v, huv⟩ := main.2 "KA 2 - Scaling: load balancing".data (by decide) (by decide)
    refine ⟨u, v, ?_⟩
    rw [huv]
    rw [show jsTrim (stripTopicHead
      (("KA 2 - Scaling: load balancing".data).takeWhile (fun c => !(c == ':')))) =
      "Scaling".data from by decide]

/-- Claim C5: re-scanning the rendered weekly section of a schedule of
length N (non-empty matched list, newline-free lines and role, N ≤ 52)
recovers exactly N week blocks, block i stating week number i+1 and the
title of the matched topic assigned to that week. -/
theorem claim_C5 (rc : List (List Char)) (role : List Char) (N : Nat)
    (hrc : rc ≠ []) (hlines : ∀ l ∈ rc, '\n' ∉ l) (hrole : '\n' ∉ role)
    (hN : N ≤ 52) :
    recoverWeekBlocks (splitOnChar '\n' (renderWeeks rc role N)) =
      (List.range N).map (fun i => (i + 1, titleForWeek rc (i + 1))) ∧
    (recoverWeekBlocks (splitOnChar '\n' (renderWeeks rc role N))).length = N := by
  have hmain : recoverWeekBlocks (splitOnChar '\n' (renderWeeks rc role N)) =
      (List.range N).map (fun i => (i + 1, titleForWeek rc (i + 1))) := by
    have hb : ∀ w ∈ (List.range N).map (fun i => i + 1), w < 53 := by
      intro w hw
      obtain ⟨i, hi, rfl⟩ := List.mem_map.mp hw
      have := List.mem_range.mp hi
      omega
    have hrec := recover_flatten rc role hrc hlines hrole
      ((List.range N).map (fun i => i + 1)) hb
    rw [List.map_map, List.map_map] at hrec
    exact hrec
  exact ⟨hmain, by rw [hmain]; simp⟩

/-- Claim C5 witness at a concrete schedule of length 2. -/
theorem claim_C5_witness :
    recoverWeekBlocks (splitOnChar '\n'
        (renderWeeks ["KA 1 - Testing: unit tests".data] "backend".data 2)) =
      (List.range 2).map
        (fun i => (i + 1, titleForWeek ["KA 1 - Testing: unit tests".data] (i + 1))) ∧
    (recoverWeekBlocks (splitOnChar '\n'
        (renderWeeks ["KA 1 - Testing: unit tests".data] "backend".data 2))).length = 2 :=
  claim_C5 ["KA 1 - Testing: unit tests".data] "backend".data 2
    (by simp) (by decide) (by decide) (by decide)

/-- Claim C6 counterexample: the boundary schema accepts the non-integer
`weeksDuration` 5/2 (the zod schema is `z.number().min(1).max(52)` with no
integrality test), refuting the claim that non-integer durations are
rejected. -/
theorem claim_C6_cex :
    validFocusRequest "frontend" (5/2) ["x"] = true ∧
    ¬ ∃ n : ℤ, ((5 : ℚ)/2) = (n : ℚ) := by
  constructor
  · unfold validFocusRequest validRoles
    simp only [Bool.and_eq_true, decide_eq_true_eq]
    refine ⟨⟨⟨⟨by decide, by norm_num⟩, by norm_num⟩, by decide⟩, by decide⟩
  · rintro ⟨n, hn⟩
    have h2 : (5 : ℚ) = 2 * n := by
      field_simp at hn
      linarith
    have h3 : (5 : ℤ) = 2 * n := by exact_mod_cast h2
    omega

/-- Claim C6 (amended): the boundary schema accepts a request iff the role
is one of the five enumerated strings, `weeksDuration` is a number in
[1,52] (integrality is NOT checked), and `focusAreas` has 1 to 5 strings;
everything outside these constraints is rejected. -/
theorem claim_C6 (role : String) (weeksDuration : ℚ) (focusAreas : List String) :
    validFocusRequest role weeksDuration focusAreas = true ↔
      (role ∈ validRoles ∧ 1 ≤ weeksDuration ∧ weeksDuration ≤ 52 ∧
        1 ≤ focusAreas.length ∧ focusAreas.length ≤ 5) := by
  unfold validFocusRequest
  simp only [Bool.and_eq_true, decide_eq_true_eq, List.elem_iff]
  tauto

/-- Claim C7 counterexample: for `__dirname = /app/dist` the `concepts://src`
resource handler reads `/app/dist/concepts.md`, a path outside the sandbox
root `/app/src` (the `startsWith` test is false), and the read is still
performed — its content is returned, with no `AccessDenied`. -/
theorem claim_C7_cex :
    startsWithList (renderPath (["app".data, "dist".data] ++ ["concepts.md".data]))
        (renderPath (srcDirSegs ["app".data, "dist".data])) = false ∧
    conceptsResource ["app".data, "dist".data]
        (fun _ => .ok "FILE CONTENT".data) = "FILE CONTENT".data := by
  exact ⟨by decide, rfl⟩

/-- Claim C7 (amended): only the `generateStudyPlan` tool performs a sandbox
test, on its two fixed paths (`concepts.md` and `study-plan.md` under
`projectRoot/src`); those constant paths always satisfy the `startsWith`
test, for every `__dirname`, so the Access-denied branch is unreachable.
The resource handlers perform no verification (see the counterexample). -/
theorem claim_C7 (dirname : List (List Char)) :
    sandboxCheckPasses dirname = true :=
  sandbox_always_passes dirname

/-- Claim C8 counterexample: a failing read of the knowledge base inside the
`generateStudyPlan` tool is surfaced to the caller as an error text (the
catch branch), not recovered with a fallback placeholder — so fallback
recovery does not hold for every read, only for the two resource
handlers. -/
theorem claim_C8_cex :
    (generateStudyPlanTool ["app".data, "src".data]
        (fun _ => .error "ENOENT: no such file or directory".data)
        "backend".data 4 ["testing".data] "2024-06-01".data).text =
      errorResponseText "ENOENT: no such file or directory".data ∧
    errorResponseText "ENOENT: no such file or directory".data ≠ conceptsPlaceholder ∧
    errorResponseText "ENOENT: no such file or directory".data ≠ studyPlanPlaceholder := by
  refine ⟨?_, by decide, by decide⟩
  unfold generateStudyPlanTool
  rw [sandbox_always_passes, if_pos rfl]
  rfl

/-- Claim C8 (amended): the `concepts://src` and `study-plan://src` resource
handlers recover every read failure locally by returning their fixed
placeholder documents, and never surface an error (their result type is
plain content); the read inside the generation pipeline instead surfaces
failures as an error text (see the counterexample). -/
theorem claim_C8 (dirname : List (List Char))
    (fsRead : List Char → Except (List Char) (List Char)) (e₁ e₂ : List Char)
    (h1 : fsRead (renderPath (dirname ++ ["concepts.md".data])) = .error e₁)
    (h2 : fsRead (renderPath (dirname ++ ["study-plan.md".data])) = .error e₂) :
    conceptsResource dirname fsRead = conceptsPlaceholder ∧
    studyPlanResource dirname fsRead = studyPlanPlaceholder := by
  unfold conceptsResource studyPlanResource
  rw [h1, h2]
  exact ⟨rfl, rfl⟩

/-- Claim C8 witness at a concrete failing file system. -/
theorem claim_C8_witness :
    conceptsResource [] (fun _ => .error "ENOENT".data) = conceptsPlaceholder ∧
    studyPlanResource [] (fun _ => .error "ENOENT".data) = studyPlanPlaceholder :=
  claim_C8 [] (fun _ => .error "ENOENT".data) "ENOENT".data "ENOENT".data rfl rfl

/-- Claim C9: whenever the pipeline aborts (the weekly-plan generation
fails — the `NoMatchingTopics` case; the Access-denied branch is
unreachable), the tool returns the textual error response, performs no
write, and the previously persisted plan document is unchanged. -/
theorem claim_C9 (dirname : List (List Char))
    (fsRead : List Char → Except (List Char) (List Char))
    (concepts role : List Char) (weeksDuration : Nat)
    (focusAreas : List (List Char)) (today : List Char) (e : List Char)
    (hread : fsRead (renderPath (conceptsPathSegs dirname)) = .ok concepts)
    (habort : generateWeeklyPlan concepts role weeksDuration focusAreas = .error e) :
    generateStudyPlanTool dirname fsRead role weeksDuration focusAreas today =
      { text := errorResponseText e, written := none } ∧
    ∀ store, applyWrite store
        (generateStudyPlanTool dirname fsRead role weeksDuration focusAreas today) =
      store := by
  have hmain : generateStudyPlanTool dirname fsRead role weeksDuration focusAreas today =
      { text := errorResponseText e, written := none } := by
    unfold generateStudyPlanTool
    rw [sandbox_always_passes dirname, if_pos rfl, hread]
    simp only [readBranch]
    rw [habort]
    rfl
  exact ⟨hmain, fun store => by rw [hmain]; rfl⟩

/-- Claim C9 witness: the Example 3 input aborts with `NoMatchingTopics`;
the response is the error text and the store is unchanged. -/
theorem claim_C9_witness :
    generateStudyPlanTool ["app".data, "src".data]
        (fun _ => .ok "KA 1 - Testing: unit tests\nKA 2 - Scaling: load balancing".data)
        "backend".data 3 ["nonexistent-keyword".data] "2024-06-01".data =
      { text := errorResponseText (noMatchMsg ["nonexistent-keyword".data]
          (splitOnChar '\n'
            "KA 1 - Testing: unit tests\nKA 2 - Scaling: load balancing".data)),
        written := none } ∧
    ∀ store, applyWrite store
        (generateStudyPlanTool ["app".data, "src".data]
          (fun _ => .ok "KA 1 - Testing: unit tests\nKA 2 - Scaling: load balancing".data)
          "backend".data 3 ["nonexistent-keyword".data] "2024-06-01".data) = store :=
  claim_C9 ["app".data, "src".data] _ _ "backend".data 3 ["nonexistent-keyword".data]
    "2024-06-01".data _ rfl rfl
